import Mathlib

/-!
Verification of the order-book synchronization, normalization and address
sharding logic of the cryptofeed repository, shallowly embedded from
`src/cryptofeed/exchange/binance.py` and
`src/cryptofeed/exchanges/poloniex_futures.py`.

Python dictionaries are modelled as association lists (`List (key × value)`)
with insertion-order semantics: updating an existing key keeps its position,
inserting a new key appends at the end, exactly as CPython dicts behave.
`Decimal` prices and amounts are modelled as `ℚ` (exact arithmetic, exact
equality, as the source requires of `Decimal`). Exchange sequence
identifiers are natural numbers. The async callbacks (`self.callback`,
`self.book_callback`) deliver events to an external sink; we model a call
as appending an event value to the list of emitted events.
-/

set_option autoImplicit false
set_option maxRecDepth 10000

namespace CryptofeedProof

universe u v

/-- Python `d[k]` read that may fail: returns the value bound to `k`,
scanning in insertion order, `none` when the key is absent (KeyError). -/
def dlookup {α : Type u} {β : Type v} [DecidableEq α] (k : α) : List (α × β) → Option β
  | [] => none
  | (k1, v) :: d => if k = k1 then some v else dlookup k d

/-- Python `d[k] = v`: update in place when the key exists, append otherwise. -/
def dinsert {α : Type u} {β : Type v} [DecidableEq α] (k : α) (v : β) : List (α × β) → List (α × β)
  | [] => [(k, v)]
  | (k1, v1) :: d => if k = k1 then (k, v) :: d else (k1, v1) :: dinsert k v d

/-- Python `del d[k]`: removes the binding of `k` (first occurrence). -/
def derase {α : Type u} {β : Type v} [DecidableEq α] (k : α) : List (α × β) → List (α × β)
  | [] => []
  | (k1, v) :: d => if k = k1 then d else (k1, v) :: derase k d

/-- Read on a `defaultdict(bool)`: Python materializes the default `False`
entry on a missing-key read, so the read returns the value together with
the possibly-extended dictionary. -/
def ddread (k : String) (d : List (String × Bool)) : Bool × List (String × Bool) :=
  match dlookup k d with
  | some v => (v, d)
  | none => (false, d ++ [(k, false)])

/-! ### Binance (`src/cryptofeed/exchange/binance.py`) -/

/-- One side of an L2 book: price → size, from `{BID: sd(), ASK: sd()}`.
The claims under study do not depend on the sorted iteration order of
`SortedDict`, only on its key → value content, so an insertion-order
association list is an adequate model. -/
structure BookSides where
  bids : List (ℚ × ℚ)
  asks : List (ℚ × ℚ)
deriving DecidableEq, Repr

/-- The per-feed mutable state touched by the Binance book pipeline:
`self.forced` (a `defaultdict(bool)`), `self.l2_book` and
`self.last_update_id` (plain dicts keyed by the standardized pair).
`self.open_interest` is never read by the code under study and is omitted. -/
structure BState where
  forced : List (String × Bool)
  l2_book : List (String × BookSides)
  last_update_id : List (String × Nat)
deriving DecidableEq, Repr

/-- Embeds `Binance._reset`: replaces all three dictionaries with fresh empty ones. -/
def binance_reset : BState := ⟨[], [], []⟩

/-- The decoded body of the REST depth snapshot: `lastUpdateId`, `bids`, `asks`. -/
structure BSnapshot where
  lastUpdateId : Nat
  bids : List (ℚ × ℚ)
  asks : List (ℚ × ℚ)
deriving DecidableEq, Repr

/-- The nested loop of `Binance._snapshot` that fills one fresh `sd()` side:
`for update in resp[s]: self.l2_book[std_pair][side][price] = amount`. -/
def build_side (entries : List (ℚ × ℚ)) : List (ℚ × ℚ) :=
  entries.foldl (fun b pa => dinsert pa.1 pa.2 b) []

/-- Embeds `Binance._snapshot` (state effects): store the snapshot's `lastUpdateId`
under the pair, then replace the pair's book with one freshly built from the
snapshot's bids and asks. The HTTP fetch is the external collaborator; its
decoded response is the `resp` argument. No callback is invoked here: the
Python body ends after filling the book. -/
def binance_snapshot (pair : String) (resp : BSnapshot) (st : BState) : BState :=
  { st with
    last_update_id := dinsert pair resp.lastUpdateId st.last_update_id,
    l2_book := dinsert pair { bids := build_side resp.bids, asks := build_side resp.asks }
      st.l2_book }

/-- Embeds `Binance._check_update_id`. Reads `self.forced[pair]` (a defaultdict
read, which materializes a `False` entry) and `self.last_update_id[pair]`
(KeyError — modelled as `none` — when absent, which Python reaches in every
branch that consults the dictionaries). Returns `(skip_update, forced)`
together with the successor state. The `else` branch is `self._reset()`. -/
def binance_check_update_id (pair : String) (U u : Nat) (st : BState) :
    Option (Bool × Bool × BState) :=
  match dlookup pair st.last_update_id with
  | none => none
  | some last =>
    let fr := ddread pair st.forced
    let forced : Bool := !fr.1
    let st1 : BState := { st with forced := fr.2 }
    if forced = true ∧ u ≤ last then
      some (true, forced, st1)
    else if forced = true ∧ (U ≤ last + 1 ∧ last + 1 ≤ u) then
      some (false, forced,
        { st1 with
          last_update_id := dinsert pair u st1.last_update_id,
          forced := dinsert pair true st1.forced })
    else if forced = false ∧ last + 1 = U then
      some (false, forced,
        { st1 with last_update_id := dinsert pair u st1.last_update_id })
    else
      some (true, forced, binance_reset)

/-- A `book_callback` delivery from the Binance `_book` handler:
full book content, the `forced` flag, and the per-side deltas. -/
inductive BEvent
  | book (pair : String) (bids asks : List (ℚ × ℚ)) (forced : Bool)
      (deltaBids deltaAsks : List (ℚ × ℚ)) (ts : Nat)
deriving DecidableEq, Repr

/-- The decoded fields of a Binance `depthUpdate` message used by `_book`:
first/final update ids `U`/`u`, event time `E`, bid and ask level lists. -/
structure BDepthMsg where
  U : Nat
  u : Nat
  E : Nat
  b : List (ℚ × ℚ)
  a : List (ℚ × ℚ)
deriving DecidableEq, Repr

/-- The shared per-level body of `Binance._book` and
`PoloniexFutures._book`: a zero amount deletes the level — and appends a
removal delta — only when the price is present; a nonzero amount upserts
the level and appends an upsert delta. -/
def apply_level (bk delta : List (ℚ × ℚ)) (price amount : ℚ) :
    List (ℚ × ℚ) × List (ℚ × ℚ) :=
  if amount = 0 then
    if price ∈ bk.map Prod.fst then (derase price bk, delta ++ [(price, amount)])
    else (bk, delta)
  else (dinsert price amount bk, delta ++ [(price, amount)])

/-- Embeds the loop `for update in msg[s]` over one side of a Binance depth message. -/
def apply_side (bk delta : List (ℚ × ℚ)) (updates : List (ℚ × ℚ)) :
    List (ℚ × ℚ) × List (ℚ × ℚ) :=
  updates.foldl (fun acc pa => apply_level acc.1 acc.2 pa.1 pa.2) (bk, delta)

/-- Embeds `Binance._book`: snapshot bootstrap when the pair has no book (the
fetched snapshot being the external input `snap`; the returned `Nat` counts
how many snapshot fetches the call performed), then the update-id check,
then the per-level mutations and a single `book_callback` delivery. -/
def binance_book (pair : String) (msg : BDepthMsg) (snap : BSnapshot) (st : BState) :
    Option (BState × List BEvent × Nat) :=
  let fetched : BState × Nat :=
    match dlookup pair st.l2_book with
    | none => (binance_snapshot pair snap st, 1)
    | some _ => (st, 0)
  match binance_check_update_id pair msg.U msg.u fetched.1 with
  | none => none
  | some (skip, forced, st2) =>
    if skip then some (st2, [], fetched.2)
    else
      match dlookup pair st2.l2_book with
      | none => none
      | some bk =>
        let rb := apply_side bk.bids [] msg.b
        let ra := apply_side bk.asks [] msg.a
        let st3 : BState :=
          { st2 with l2_book := dinsert pair { bids := rb.1, asks := ra.1 } st2.l2_book }
        some (st3, [BEvent.book pair rb.1 ra.1 forced rb.2 ra.2 msg.E], fetched.2)

/-! ### PoloniexFutures (`src/cryptofeed/exchanges/poloniex_futures.py`) -/

/-- The `OrderBook` object from `cryptofeed.types` as used by
`PoloniexFutures`: the two book sides (`book.bids` / `book.asks`) and the
`sequence_number` attribute, which is `none` on a freshly constructed book
and is assigned by `book_callback`. -/
structure PFBook where
  bids : List (ℚ × ℚ)
  asks : List (ℚ × ℚ)
  sequence_number : Option Nat
deriving DecidableEq, Repr

/-- The mutable state of the PoloniexFutures feed touched by the book
pipeline: `self._l2_book` and `self.seq_no`, plain dicts keyed by the
standardized symbol. -/
structure PFState where
  l2_book : List (String × PFBook)
  seq_no : List (String × Nat)
deriving DecidableEq, Repr

/-- Modelled from the spec: the `_reset` helper invoked on a gap lives in
the base class outside `src/` (only `PoloniexFutures.__reset` is visible,
with the same body shape). Per §4.2 "On gap: … destroy the OrderBook …
transition to UNSYNCED" and the lifecycle rules, it discards the order
books and the sequence state wholesale. -/
def pf_reset : PFState := ⟨[], []⟩

/-- The decoded `data` of the PoloniexFutures REST level-2 snapshot:
`sequence`, `bids`, `asks`. -/
structure PFSnapshot where
  sequence : Nat
  bids : List (ℚ × ℚ)
  asks : List (ℚ × ℚ)
deriving DecidableEq, Repr

/-- A `book_callback` delivery from the PoloniexFutures handlers. A
snapshot delivery carries no delta and no forced flag (the call in
`_snapshot` passes neither); a delta delivery carries the per-side deltas.
Both carry the sequence number handed to the callback. -/
inductive PEvent
  | bookSnapshot (symbol : String) (bids asks : List (ℚ × ℚ)) (seq : Nat)
  | bookDelta (symbol : String) (bids asks deltaBids deltaAsks : List (ℚ × ℚ)) (seq : Nat)
deriving DecidableEq, Repr

/-- Modelled from the spec: `Feed.book_callback` is outside `src/`. Per §6
it delivers the canonical event to the EventDispatcher sink; it also
records the `sequence_number` passed to it on the delivered `OrderBook`
(the `sequence_number is None` guard in `_check_update_id` distinguishes a
book that has not yet been delivered — §4.2's not-yet-`SYNCED` state —
from one that has). `delta = none` is the snapshot-shaped call. -/
def pf_book_callback (symbol : String) (book : PFBook) (seq : Nat)
    (delta : Option (List (ℚ × ℚ) × List (ℚ × ℚ))) (st : PFState) : PFState × PEvent :=
  let book1 : PFBook := { book with sequence_number := some seq }
  let st1 : PFState := { st with l2_book := dinsert symbol book1 st.l2_book }
  match delta with
  | none => (st1, PEvent.bookSnapshot symbol book1.bids book1.asks seq)
  | some d => (st1, PEvent.bookDelta symbol book1.bids book1.asks d.1 d.2 seq)

/-- Embeds `PoloniexFutures._snapshot`: build a fresh `OrderBook` (its
`sequence_number` starts out `none`), record `self.seq_no[symbol]`, assign
the bid and ask sides from the response, then call `book_callback` with
the snapshot's sequence number and no delta. -/
def pf_snapshot (symbol : String) (resp : PFSnapshot) (st : PFState) : PFState × PEvent :=
  let book0 : PFBook := { bids := resp.bids, asks := resp.asks, sequence_number := none }
  let st1 : PFState :=
    { l2_book := dinsert symbol book0 st.l2_book,
      seq_no := dinsert symbol resp.sequence st.seq_no }
  pf_book_callback symbol book0 resp.sequence none st1

/-- Embeds `PoloniexFutures._check_update_id`: skip while the book has never been
delivered (`sequence_number is None`) or the update is stale
(`sequence <= seq_no`); accept exactly the successor sequence; any other
relation resets. Dictionary reads that Python would raise `KeyError` on
are `none`. -/
def pf_check_update_id (symbol : String) (sequence : Nat) (st : PFState) :
    Option (Bool × PFState) :=
  match dlookup symbol st.l2_book with
  | none => none
  | some book =>
    match book.sequence_number with
    | none => some (true, st)
    | some _ =>
      match dlookup symbol st.seq_no with
      | none => none
      | some sn =>
        if sequence ≤ sn then some (true, st)
        else if sequence = sn + 1 then
          some (false, { st with seq_no := dinsert symbol sequence st.seq_no })
        else some (true, pf_reset)

/-- The decoded `change` field of a level-2 message:
`'price,side,amount'` split at the commas. -/
structure PFChange where
  price : ℚ
  side : String
  amount : ℚ
deriving DecidableEq, Repr

/-- The fields of a PoloniexFutures level-2 message used by `_book`: the
symbol from the topic suffix, `data.sequence`, `data.change`,
`data.timestamp`. -/
structure PFBookMsg where
  symbol : String
  sequence : Nat
  change : PFChange
  timestamp : Nat
deriving DecidableEq, Repr

/-- Embeds `PoloniexFutures._book`: snapshot bootstrap when the symbol has no
book (the fetched snapshot being the external input `snap`; the returned
`Nat` counts snapshot fetches), then the sequence check, then the single
level change (`BID` side exactly when the side string is `'buy'`) and a
`book_callback` delivery carrying the delta. -/
def pf_book (msg : PFBookMsg) (snap : PFSnapshot) (st : PFState) :
    Option (PFState × List PEvent × Nat) :=
  let fetched : PFState × List PEvent × Nat :=
    match dlookup msg.symbol st.l2_book with
    | none =>
      let r := pf_snapshot msg.symbol snap st
      (r.1, [r.2], 1)
    | some _ => (st, [], 0)
  match pf_check_update_id msg.symbol msg.sequence fetched.1 with
  | none => none
  | some (skip, st2) =>
    if skip then some (st2, fetched.2.1, fetched.2.2)
    else
      match dlookup msg.symbol st2.l2_book with
      | none => none
      | some book =>
        let isBid : Bool := msg.change.side = "buy"
        let target := if isBid then book.bids else book.asks
        let r := apply_level target [] msg.change.price msg.change.amount
        let book2 : PFBook :=
          if isBid then { book with bids := r.1 } else { book with asks := r.1 }
        let dB := if isBid then r.2 else []
        let dA := if isBid then [] else r.2
        let cb := pf_book_callback msg.symbol book2 msg.sequence (some (dB, dA)) st2
        some (cb.1, fetched.2.1 ++ [cb.2], fetched.2.2)

/-! ### Trade side normalization -/

/-- The canonical two-valued side enum (`BUY` / `SELL`). -/
inductive Side
  | buy
  | sell
deriving DecidableEq, Repr

/-- Embeds `Binance._trade`: `side=SELL if msg['m'] else BUY` — the buyer-is-maker
boolean selects `SELL`. -/
def binance_trade_side (m : Bool) : Side :=
  if m then Side.sell else Side.buy

/-- Embeds `PoloniexFutures._trade`:
`SELL if msg['data']['side'] == 'sell' else BUY`. -/
def pf_trade_side (s : String) : Side :=
  if s = "sell" then Side.sell else Side.buy

/-! ### Message handler classification -/

/-- The payload shape information `Binance.message_handler` inspects:
the optional event-type tag `'e'` and whether the key `'A'` is present. -/
structure BPayload where
  e : Option String
  hasA : Bool
deriving DecidableEq, Repr

/-- A raw Binance frame: the combined-stream wrapper keys `'stream'` and
`'data'`, each possibly absent. -/
structure BRawMsg where
  stream : Option String
  data : Option BPayload
deriving DecidableEq, Repr

/-- What `Binance.message_handler` decides to do with a frame. `logDrop`
is the `LOG.warning(... Unexpected message ...)` path: nothing is
dispatched, no event is emitted and no state is touched. -/
inductive BAction
  | book
  | trade
  | liquidations
  | funding
  | ticker
  | logDrop
deriving DecidableEq, Repr

/-- The dispatch logic of `Binance.message_handler`, in the handler's own
order: `msg['stream']` is indexed (raising `KeyError`, modelled as
`Except.error`, when the key is absent), then
`pair, _ = msg['stream'].split('@', 1)` is unpacked — `split` with one
separator occurrence or more yields two pieces, while a stream value with
no `'@'` yields one piece and the two-name unpack raises `ValueError` —
then `msg['data']` is indexed (`KeyError` when absent), and finally the
`'e'` tag (or, failing that, the presence of `'A'`) selects the handler. -/
def binance_classify (m : BRawMsg) : Except String BAction :=
  match m.stream with
  | none => Except.error "KeyError: stream"
  | some s =>
    if '@' ∈ s.data then
      match m.data with
      | none => Except.error "KeyError: data"
      | some d =>
        match d.e with
        | some tag =>
          if tag = "depthUpdate" then Except.ok BAction.book
          else if tag = "aggTrade" then Except.ok BAction.trade
          else if tag = "forceOrder" then Except.ok BAction.liquidations
          else if tag = "markPriceUpdate" then Except.ok BAction.funding
          else Except.ok BAction.logDrop
        | none => if d.hasA then Except.ok BAction.ticker else Except.ok BAction.logDrop
    else Except.error "ValueError: unpack"

/-- What `PoloniexFutures.message_handler` decides to do with a frame. -/
inductive PFAction
  | errorLog
  | silentDrop
  | trade
  | book
  | logDrop
deriving DecidableEq, Repr

/-- The dispatch logic of `PoloniexFutures.message_handler`: `msg.get`
never raises, the `'type'` tag handles control frames, then the
`'subject'` tag selects the handler; anything else is logged and dropped. -/
def pf_classify (type_ subject : Option String) : PFAction :=
  if type_ = some "error" then PFAction.errorLog
  else if type_ = some "welcome" then PFAction.silentDrop
  else if type_ = some "ack" then PFAction.silentDrop
  else if type_ = some "subscribe" then PFAction.silentDrop
  else if subject = some "match" then PFAction.trade
  else if subject = some "level2" then PFAction.book
  else PFAction.logDrop

/-! ### Snapshot depth selection (`Binance._snapshot`, lines 162-169) -/

/-- Embeds `Binance.valid_depths`. -/
def binance_valid_depths : List Nat := [5, 10, 20, 50, 100, 500, 1000, 5000]

/-- The limit computation of `Binance._snapshot`:
`max_depth = self.max_depth if self.max_depth else 1000` (Python truthiness:
an unset or zero `max_depth` falls back to 1000), then, when the value is
not a valid depth, `for d in self.valid_depths: if d > max_depth:
max_depth = d` — a loop with no `break`, so each larger valid depth
overwrites the previous one. -/
def binance_snapshot_limit (configured : Option Nat) : Nat :=
  let md : Nat :=
    match configured with
    | none => 1000
    | some n => if n = 0 then 1000 else n
  if md ∈ binance_valid_depths then md
  else binance_valid_depths.foldl (fun cur d => if cur < d then d else cur) md

/-! ### Address sharding (`Binance._address`)

The double loop of `_address` flattens the subscription into a sequence of
stream tokens `f"{pair}@{chan}/"` (skipping `OPEN_INTEREST`); each token is
appended to the address string under construction and, every 200 tokens,
the address is sealed into the dict `ret` under the last appended token as
key. We model the flattened token sequence as a `List α` for any type with
decidable equality (an address string is determined by its token list, so a
shard is modelled as its key together with its token list). -/

/-- The loop body of `Binance._address`: `ret` is the dict of sealed
shards, `counter` the token count of the open shard, `current` the tokens
of the open shard (the address under construction), and `lastS` the Python
loop variable `stream` (the last token processed, if any). -/
def binance_address_loop {α : Type u} [DecidableEq α] :
    List α → List (α × List α) → Nat → List α → Option α →
    List (α × List α) × Nat × List α × Option α
  | [], ret, counter, current, lastS => (ret, counter, current, lastS)
  | s :: rest, ret, counter, current, _ =>
    if counter + 1 = 200 then
      binance_address_loop rest (dinsert s (current ++ [s]) ret) 0 [] (some s)
    else
      binance_address_loop rest ret (counter + 1) (current ++ [s]) (some s)

/-- The return value of `Binance._address`: `None`, one single address, or
a dict of addresses. -/
inductive BinanceAddr (α : Type u)
  | nothing : BinanceAddr α
  | single (streams : List α) : BinanceAddr α
  | multi (shards : List (α × List α)) : BinanceAddr α
deriving DecidableEq, Repr

/-- Embeds the tail of `Binance._address` after the loop: with no sealed shard, return `None`
on an empty address and the single address otherwise; with sealed shards,
seal the leftover tokens (when `counter > 0`) under the last processed
token `stream` before returning the dict. -/
def binance_address {α : Type u} [DecidableEq α] (streams : List α) : BinanceAddr α :=
  match binance_address_loop streams [] 0 [] none with
  | (ret, counter, current, lastS) =>
    if ret = [] then
      if current = [] then BinanceAddr.nothing else BinanceAddr.single current
    else if 0 < counter then
      match lastS with
      | some s => BinanceAddr.multi (dinsert s current ret)
      | none => BinanceAddr.multi ret
    else BinanceAddr.multi ret

/-- The per-connection token lists of an `_address` result. -/
def shardsOf {α : Type u} : BinanceAddr α → List (List α)
  | BinanceAddr.nothing => []
  | BinanceAddr.single c => [c]
  | BinanceAddr.multi d => d.map Prod.snd

/-! ### Concrete inputs used by witnesses and counterexamples -/

/-- A synced Binance state for one pair `"P"` with `last_update_id = 150`
and the first post-snapshot update still pending (`self.forced` empty, so
`self.forced["P"]` reads as `False`). -/
def wSt150 : BState := ⟨[], [("P", ⟨[], []⟩)], [("P", 150)]⟩

/-- A Binance state subscribed to two pairs `"A"` and `"B"`, both beyond
their first post-snapshot update. -/
def c3State : BState :=
  ⟨[("A", true), ("B", true)],
   [("A", ⟨[((1 : ℚ), (1 : ℚ))], []⟩), ("B", ⟨[((2 : ℚ), (3 : ℚ))], []⟩)],
   [("A", 100), ("B", 50)]⟩

/-- A depth update for `"A"` whose first id 102 is discontinuous with
`last_update_id["A"] = 100` (a gap: `U ≠ 100 + 1`). -/
def c3Msg : BDepthMsg := ⟨102, 103, 0, [], []⟩

/-- An arbitrary snapshot response (unused on the gap path). -/
def c3Snap : BSnapshot := ⟨0, [], []⟩

/-- A synced PoloniexFutures state for one symbol `"S"` with
`seq_no = 10` and a delivered book (`sequence_number = some 10`). -/
def pwSt : PFState :=
  ⟨[("S", ⟨[((1 : ℚ), (1 : ℚ))], [((2 : ℚ), (1 : ℚ))], some 10⟩)], [("S", 10)]⟩

/-- A level-2 message for `"S"` replaying the already applied sequence 10. -/
def pwMsg : PFBookMsg := ⟨"S", 10, ⟨5, "buy", 1⟩, 0⟩

/-- An arbitrary PoloniexFutures snapshot response (unused when the symbol
already has a book). -/
def pwSnap : PFSnapshot := ⟨0, [], []⟩

/-- A depth update whose final id 90 is at or below the snapshot's
`lastUpdateId = 100`: stale with respect to `c4Snap`. -/
def c4Msg : BDepthMsg := ⟨80, 90, 7, [((1 : ℚ), (2 : ℚ))], []⟩

/-- A snapshot response with `lastUpdateId = 100`, one bid and one ask. -/
def c4Snap : BSnapshot := ⟨100, [((1 : ℚ), (1 : ℚ))], [((2 : ℚ), (1 : ℚ))]⟩

/-! ### Helper lemmas about the dictionary model -/

theorem dlookup_dinsert_self {α : Type u} {β : Type v} [DecidableEq α]
    (k : α) (v : β) (d : List (α × β)) : dlookup k (dinsert k v d) = some v := by
  induction d with
  | nil => simp [dlookup, dinsert]
  | cons p d ih =>
    by_cases h : k = p.1
    · simp [dlookup, dinsert, h]
    · simp [dlookup, dinsert, h, ih]

theorem dinsert_of_not_mem {α : Type u} {β : Type v} [DecidableEq α]
    {k : α} (v : β) {d : List (α × β)} (h : k ∉ d.map Prod.fst) :
    dinsert k v d = d ++ [(k, v)] := by
  induction d with
  | nil => simp [dinsert]
  | cons p d ih =>
    simp only [List.map_cons, List.mem_cons] at h
    push_neg at h
    simp [dinsert, h.1, ih h.2]

theorem ddread_fst (k : String) (d : List (String × Bool)) :
    (ddread k d).1 = (dlookup k d).getD false := by
  unfold ddread
  cases h : dlookup k d <;> simp

theorem dlookup_append_single_ne {α : Type u} {β : Type v} [DecidableEq α]
    {q k : α} (v : β) (d : List (α × β)) (hq : q ≠ k) :
    dlookup q (d ++ [(k, v)]) = dlookup q d := by
  induction d with
  | nil => simp [dlookup, hq]
  | cons p d ih =>
    simp only [List.cons_append, dlookup]
    by_cases hp : q = p.1 <;> simp [hp, ih]

theorem dlookup_append_single_of_none {α : Type u} {β : Type v} [DecidableEq α]
    {k : α} (v : β) {d : List (α × β)} (h : dlookup k d = none) :
    dlookup k (d ++ [(k, v)]) = some v := by
  induction d with
  | nil => simp [dlookup]
  | cons p d ih =>
    simp only [dlookup] at h
    by_cases hp : k = p.1
    · simp [hp] at h
    · simp only [List.cons_append, dlookup, if_neg hp] at *
      exact ih h

theorem ddread_snd_lookup (k : String) (d : List (String × Bool)) (q : String) :
    (dlookup q (ddread k d).2).getD false = (dlookup q d).getD false := by
  unfold ddread
  cases h : dlookup k d with
  | some v => simp
  | none =>
    simp only
    by_cases hq : q = k
    · subst hq
      rw [dlookup_append_single_of_none false h, h]
      rfl
    · rw [dlookup_append_single_ne false d hq]

/-! ### C6: idempotent level removal -/

/-- Claim C6: processing a `(price, size)` entry with `size = 0` whose
price is not present on that side of the book mutates nothing and appends
nothing to the emitted delta (and, the model being total, raises no
error); a removal delta is emitted — and the level erased — exactly when
the level existed. This is the shared level body of `Binance._book` and
`PoloniexFutures._book`. -/
theorem idempotent_level_removal :
    (∀ (bk delta : List (ℚ × ℚ)) (price : ℚ),
      price ∉ bk.map Prod.fst →
      apply_level bk delta price 0 = (bk, delta))
    ∧ (∀ (bk delta : List (ℚ × ℚ)) (price : ℚ),
      price ∈ bk.map Prod.fst →
      apply_level bk delta price 0 = (derase price bk, delta ++ [(price, 0)])) := by
  constructor
  · intro bk delta price h
    simp [apply_level, h]
  · intro bk delta price h
    simp [apply_level, h]

/-- Witness for C6 at a concrete book: removing price 3 from a book that
only holds price 1 changes nothing; removing price 1 erases it and emits
the removal delta. -/
theorem idempotent_level_removal_witness :
    apply_level [((1 : ℚ), (2 : ℚ))] [] 3 0 = ([((1 : ℚ), (2 : ℚ))], [])
    ∧ apply_level [((1 : ℚ), (2 : ℚ))] [] 1 0 = ([], [((1 : ℚ), (0 : ℚ))]) := by
  constructor
  · exact idempotent_level_removal.1 [((1 : ℚ), (2 : ℚ))] [] 3 (by decide)
  · have h := idempotent_level_removal.2 [((1 : ℚ), (2 : ℚ))] [] 1 (by decide)
    rw [h]
    decide

/-! ### C9: trade side normalization -/

/-- Claim C9: the canonical side of a Binance trade is `SELL` exactly when
the buyer-is-maker flag `'m'` is true, and of a PoloniexFutures trade
exactly when the side string is `"sell"`; otherwise it is `BUY`. -/
theorem trade_side_normalization :
    (∀ m : Bool, (binance_trade_side m = Side.sell ↔ m = true)
      ∧ (binance_trade_side m = Side.buy ↔ m = false))
    ∧ (∀ s : String, (pf_trade_side s = Side.sell ↔ s = "sell")
      ∧ (pf_trade_side s = Side.buy ↔ s ≠ "sell")) := by
  constructor
  · intro m
    cases m <;> simp [binance_trade_side]
  · intro s
    unfold pf_trade_side
    by_cases h : s = "sell" <;> simp [h]

/-! ### C10: snapshot depth selection -/

/-- The depth-promotion loop never exceeds a strict bound that dominates
its input and every valid depth. -/
theorem foldl_depth_lt (l : List Nat) : ∀ (m c : Nat), m < c → (∀ d ∈ l, d < c) →
    List.foldl (fun cur d => if cur < d then d else cur) m l < c := by
  induction l with
  | nil => intro m c hm _; simpa using hm
  | cons a l ih =>
    intro m c hm hd
    rw [List.foldl_cons]
    refine ih _ c ?_ (fun d hdm => hd d (List.mem_cons_of_mem a hdm))
    have := hd a (List.mem_cons_self a l)
    split <;> omega

/-- The depth-promotion loop is the identity when the input dominates
every valid depth. -/
theorem foldl_depth_fixed (l : List Nat) : ∀ (m : Nat), (∀ d ∈ l, d ≤ m) →
    List.foldl (fun cur d => if cur < d then d else cur) m l = m := by
  induction l with
  | nil => intro m _; rfl
  | cons a l ih =>
    intro m hd
    rw [List.foldl_cons]
    have ha := hd a (List.mem_cons_self a l)
    rw [if_neg (by omega)]
    exact ih m (fun d hdm => hd d (List.mem_cons_of_mem a hdm))

/-- Claim C10: a configured `max_depth` outside the valid-depth list is
promoted to 5000 (the largest valid depth, because the selection loop has
no `break`) whenever it is below 5000, and is used verbatim whenever it
exceeds 5000; an unconfigured (or zero, Python-falsy) `max_depth` yields
the default limit 1000. -/
theorem snapshot_depth_selection :
    (∀ m : Nat, 0 < m → m ∉ binance_valid_depths → m < 5000 →
      binance_snapshot_limit (some m) = 5000)
    ∧ (∀ m : Nat, 5000 < m → binance_snapshot_limit (some m) = m)
    ∧ binance_snapshot_limit none = 1000 := by
  refine ⟨?_, ?_, by decide⟩
  · intro m hm hmem hlt
    have h0 : ¬m = 0 := by omega
    unfold binance_snapshot_limit
    simp only [if_neg h0]
    rw [if_neg hmem]
    rw [show binance_valid_depths = [5, 10, 20, 50, 100, 500, 1000] ++ [5000] from rfl,
        List.foldl_append]
    have hy := foldl_depth_lt [5, 10, 20, 50, 100, 500, 1000] m 5000 hlt
      (by intro d hd; fin_cases hd <;> omega)
    rw [List.foldl_cons, List.foldl_nil, if_pos hy]
  · intro m hm
    have h0 : ¬m = 0 := by omega
    have hmem : m ∉ binance_valid_depths := by
      simp only [binance_valid_depths, List.mem_cons, List.not_mem_nil, or_false]
      omega
    unfold binance_snapshot_limit
    simp only [if_neg h0]
    rw [if_neg hmem]
    exact foldl_depth_fixed binance_valid_depths m
      (by intro d hd; simp only [binance_valid_depths] at hd; fin_cases hd <;> omega)

/-- Witness for C10: a configured depth of 7 (below the full range) is
promoted to 5000, not to the next valid depth 10; a configured depth of
6000 is used verbatim although invalid; no configured depth gives 1000. -/
theorem snapshot_depth_selection_witness :
    binance_snapshot_limit (some 7) = 5000
    ∧ binance_snapshot_limit (some 6000) = 6000
    ∧ binance_snapshot_limit none = 1000 :=
  ⟨snapshot_depth_selection.1 7 (by decide) (by decide) (by decide),
   snapshot_depth_selection.2.1 6000 (by decide),
   snapshot_depth_selection.2.2⟩

/-! ### C8: unrecognized message handling -/

/-- Counterexample to claim C8 as stated: messages with no recognized key
shape make `Binance.message_handler` raise instead of logging them and
returning normally — one lacking the combined-stream wrapper key
`'stream'` raises `KeyError` at `msg['stream']`, and one whose `'stream'`
value contains no `'@'` raises `ValueError` at the
`pair, _ = msg['stream'].split('@', 1)` unpack, even with both wrapper
keys present. -/
theorem binance_handler_keyerror :
    binance_classify ⟨none, none⟩ = Except.error "KeyError: stream"
    ∧ binance_classify ⟨some "nosplit", some ⟨some "bogus", false⟩⟩
      = Except.error "ValueError: unpack" :=
  ⟨rfl, rfl⟩

/-- Amended C8: a Binance frame that carries the combined-stream wrapper
(`'stream'` and `'data'` present) with a well-formed stream name (its
value contains the `'@'` separator, so the `split('@', 1)` unpack
succeeds) but whose payload matches no recognized variant — an unknown
`'e'` tag, or no `'e'` tag and no `'A'` key — is logged and dropped: no
handler is dispatched, so no event is emitted, no order-book or sequence
state changes, and no exception is raised. A Binance frame whose stream
value lacks `'@'` raises `ValueError` whatever its payload, and one
missing the wrapper keys raises `KeyError` (see the counterexample).
Every PoloniexFutures frame whose `'type'` and `'subject'` tags match no
recognized variant is logged and dropped, and its handler (which only
uses `dict.get`) never raises on dispatch. -/
theorem unrecognized_message_spec :
    (∀ (s : String) (d : BPayload),
      '@' ∈ s.data →
      (∀ tag, d.e = some tag →
        tag ≠ "depthUpdate" ∧ tag ≠ "aggTrade" ∧ tag ≠ "forceOrder"
          ∧ tag ≠ "markPriceUpdate") →
      (d.e = none → d.hasA = false) →
      binance_classify ⟨some s, some d⟩ = Except.ok BAction.logDrop)
    ∧ (∀ (s : String) (md : Option BPayload),
      '@' ∉ s.data →
      binance_classify ⟨some s, md⟩ = Except.error "ValueError: unpack")
    ∧ (∀ type_ subject : Option String,
      type_ ≠ some "error" → type_ ≠ some "welcome" → type_ ≠ some "ack" →
      type_ ≠ some "subscribe" →
      subject ≠ some "match" → subject ≠ some "level2" →
      pf_classify type_ subject = PFAction.logDrop) := by
  refine ⟨?_, ?_, ?_⟩
  · intro s d hat htag hnone
    unfold binance_classify
    simp only
    rw [if_pos hat]
    cases he : d.e with
    | some tag =>
      have h := htag tag he
      simp [h.1, h.2.1, h.2.2.1, h.2.2.2]
    | none =>
      simp [hnone he]
  · intro s md hat
    unfold binance_classify
    simp only
    rw [if_neg hat]
  · intro type_ subject h1 h2 h3 h4 h5 h6
    unfold pf_classify
    simp [h1, h2, h3, h4, h5, h6]

/-- Witness for C8 (amended): a wrapped Binance frame with stream name
`'x@depth'` and the unknown tag `'bogus'` is dropped, one with stream
name `'nosplit'` raises `ValueError`, and a PoloniexFutures frame with
type `'message'` and subject `'weird'` is dropped. -/
theorem unrecognized_message_spec_witness :
    binance_classify ⟨some "x@depth", some ⟨some "bogus", false⟩⟩ = Except.ok BAction.logDrop
    ∧ binance_classify ⟨some "nosplit", some ⟨none, true⟩⟩
      = Except.error "ValueError: unpack"
    ∧ pf_classify (some "message") (some "weird") = PFAction.logDrop :=
  ⟨unrecognized_message_spec.1 "x@depth" ⟨some "bogus", false⟩ (by decide)
      (by intro tag h; cases h; refine ⟨by decide, by decide, by decide, by decide⟩)
      (by intro h; cases h),
   unrecognized_message_spec.2.1 "nosplit" (some ⟨none, true⟩) (by decide),
   unrecognized_message_spec.2.2 (some "message") (some "weird")
      (by decide) (by decide) (by decide) (by decide) (by decide) (by decide)⟩

/-! ### Characterizations of the Binance and PoloniexFutures book pipelines -/

theorem binance_snapshot_forced (pair : String) (snap : BSnapshot) (st : BState) :
    (binance_snapshot pair snap st).forced = st.forced := rfl

theorem binance_snapshot_last (pair : String) (snap : BSnapshot) (st : BState) :
    dlookup pair (binance_snapshot pair snap st).last_update_id = some snap.lastUpdateId :=
  dlookup_dinsert_self pair snap.lastUpdateId st.last_update_id

theorem binance_snapshot_book (pair : String) (snap : BSnapshot) (st : BState) :
    dlookup pair (binance_snapshot pair snap st).l2_book
      = some ⟨build_side snap.bids, build_side snap.asks⟩ :=
  dlookup_dinsert_self pair _ st.l2_book

/-- Behavior of `_check_update_id` on the first update after a snapshot
(`self.forced[pair]` reads `False`), as one three-way case split. -/
theorem binance_check_first (pair : String) (U u : Nat) (st : BState) (L : Nat)
    (hL : dlookup pair st.last_update_id = some L)
    (hf : (ddread pair st.forced).1 = false) :
    binance_check_update_id pair U u st =
      (if u ≤ L then some (true, true, { st with forced := (ddread pair st.forced).2 })
       else if U ≤ L + 1 ∧ L + 1 ≤ u then
         some (false, true,
           { st with forced := dinsert pair true (ddread pair st.forced).2,
                     last_update_id := dinsert pair u st.last_update_id })
       else some (true, true, binance_reset)) := by
  unfold binance_check_update_id
  rw [hL]
  simp only [hf, Bool.not_false]
  by_cases h1 : u ≤ L
  · rw [if_pos ⟨by trivial, h1⟩, if_pos h1]
  · rw [if_neg (fun h => h1 h.2), if_neg h1]
    by_cases h2 : U ≤ L + 1 ∧ L + 1 ≤ u
    · rw [if_pos ⟨by trivial, h2⟩, if_pos h2]
    · rw [if_neg (fun h => h2 h.2), if_neg h2, if_neg (fun h => by simp at h)]

/-- Behavior of `_check_update_id` on subsequent updates (`self.forced[pair]` reads
`True`), as one two-way case split. -/
theorem binance_check_subseq (pair : String) (U u : Nat) (st : BState) (L : Nat)
    (hL : dlookup pair st.last_update_id = some L)
    (hf : (ddread pair st.forced).1 = true) :
    binance_check_update_id pair U u st =
      (if L + 1 = U then
        some (false, false, { st with last_update_id := dinsert pair u st.last_update_id })
       else some (true, false, binance_reset)) := by
  have hmat : (ddread pair st.forced).2 = st.forced := by
    unfold ddread at hf ⊢
    cases hd : dlookup pair st.forced with
    | none => rw [hd] at hf; cases hf
    | some v => rfl
  unfold binance_check_update_id
  rw [hL]
  simp only [hf, Bool.not_true, hmat]
  rw [if_neg (fun h => by simp at h), if_neg (fun h => by simp at h)]
  by_cases h : L + 1 = U
  · rw [if_pos ⟨by trivial, h⟩, if_pos h]
  · rw [if_neg (fun hh => h hh.2), if_neg h]

/-- A `_book` call on a pair with no book fetches exactly one snapshot;
it emits nothing when the triggering delta is stale relative to the
snapshot, and whatever it does emit carries `forced = true`. -/
theorem binance_book_bootstrap (pair : String) (msg : BDepthMsg) (snap : BSnapshot) (st : BState)
    (hb : dlookup pair st.l2_book = none)
    (hf : (ddread pair st.forced).1 = false) :
    ∃ st1 evs, binance_book pair msg snap st = some (st1, evs, 1)
      ∧ (msg.u ≤ snap.lastUpdateId → evs = [])
      ∧ (∀ pr bids asks fl dB dA ts, BEvent.book pr bids asks fl dB dA ts ∈ evs → fl = true) := by
  have hforced : (ddread pair (binance_snapshot pair snap st).forced).1 = false := by
    rw [binance_snapshot_forced]
    exact hf
  have hch := binance_check_first pair msg.U msg.u (binance_snapshot pair snap st)
    snap.lastUpdateId (binance_snapshot_last pair snap st) hforced
  unfold binance_book
  simp only [hb]
  by_cases h1 : msg.u ≤ snap.lastUpdateId
  · rw [if_pos h1] at hch
    rw [hch]
    exact ⟨_, [], rfl, fun _ => rfl, by intro pr bids asks fl dB dA ts h; cases h⟩
  · rw [if_neg h1] at hch
    by_cases h2 : msg.U ≤ snap.lastUpdateId + 1 ∧ snap.lastUpdateId + 1 ≤ msg.u
    · rw [if_pos h2] at hch
      rw [hch]
      simp only
      rw [show dlookup pair
          ({ binance_snapshot pair snap st with
             forced := dinsert pair true (ddread pair (binance_snapshot pair snap st).forced).2,
             last_update_id :=
               dinsert pair msg.u (binance_snapshot pair snap st).last_update_id } : BState).l2_book
          = some ⟨build_side snap.bids, build_side snap.asks⟩ from binance_snapshot_book pair snap st]
      refine ⟨_, _, rfl, fun hu => absurd hu h1, ?_⟩
      intro pr bids asks fl dB dA ts h
      rw [List.mem_singleton] at h
      cases h
      rfl
    · rw [if_neg h2] at hch
      rw [hch]
      exact ⟨binance_reset, [], rfl, fun _ => rfl, by intro pr bids asks fl dB dA ts h; cases h⟩

theorem pf_snapshot_event (symbol : String) (snap : PFSnapshot) (st : PFState) :
    (pf_snapshot symbol snap st).2
      = PEvent.bookSnapshot symbol snap.bids snap.asks snap.sequence := rfl

theorem pf_snapshot_book (symbol : String) (snap : PFSnapshot) (st : PFState) :
    dlookup symbol (pf_snapshot symbol snap st).1.l2_book
      = some ⟨snap.bids, snap.asks, some snap.sequence⟩ :=
  dlookup_dinsert_self symbol _ _

theorem pf_snapshot_seq (symbol : String) (snap : PFSnapshot) (st : PFState) :
    dlookup symbol (pf_snapshot symbol snap st).1.seq_no = some snap.sequence :=
  dlookup_dinsert_self symbol _ _

/-- A `_book` call on a symbol with no book delivers the snapshot-shaped
event (which carries no forced flag) first, whatever happens next. -/
theorem pf_book_bootstrap (msg : PFBookMsg) (snap : PFSnapshot) (st : PFState)
    (hb : dlookup msg.symbol st.l2_book = none) :
    ∃ st1 evs n, pf_book msg snap st
      = some (st1, PEvent.bookSnapshot msg.symbol snap.bids snap.asks snap.sequence :: evs, n) := by
  unfold pf_book
  simp only [hb]
  have hch : pf_check_update_id msg.symbol msg.sequence (pf_snapshot msg.symbol snap st).1 =
      (if msg.sequence ≤ snap.sequence then some (true, (pf_snapshot msg.symbol snap st).1)
       else if msg.sequence = snap.sequence + 1 then
         some (false, { (pf_snapshot msg.symbol snap st).1 with
           seq_no := dinsert msg.symbol msg.sequence (pf_snapshot msg.symbol snap st).1.seq_no })
       else some (true, pf_reset)) := by
    unfold pf_check_update_id
    simp only [pf_snapshot_book, pf_snapshot_seq]
  by_cases h1 : msg.sequence ≤ snap.sequence
  · rw [if_pos h1] at hch
    rw [hch]
    exact ⟨_, [], 1, rfl⟩
  · rw [if_neg h1] at hch
    by_cases h2 : msg.sequence = snap.sequence + 1
    · rw [if_pos h2] at hch
      rw [hch]
      simp only
      rw [show dlookup msg.symbol
          ({ (pf_snapshot msg.symbol snap st).1 with
             seq_no := dinsert msg.symbol msg.sequence
               (pf_snapshot msg.symbol snap st).1.seq_no } : PFState).l2_book
          = some ⟨snap.bids, snap.asks, some snap.sequence⟩ from pf_snapshot_book msg.symbol snap st]
      exact ⟨_, _, 1, rfl⟩
    · rw [if_neg h2] at hch
      rw [hch]
      exact ⟨pf_reset, [], 1, rfl⟩

/-! ### C1: Binance window consistency policy -/

/-- Claim C1: while synced, on the first update after a snapshot
(`self.forced[pair]` reads `False`) an update is accepted iff
`U ≤ lastSequence + 1 ≤ u`, upon which `lastSequence` becomes `u` and the
pair is marked past its first update; a first update with
`u ≤ lastSequence` is skipped as stale without changing the book, the
sequence state, or any observable `forced` value (only the `defaultdict`
materializes its default); any other first update is a gap. On every
subsequent update (`self.forced[pair]` reads `True`) the update is
accepted iff `lastSequence + 1 = U`, upon which `lastSequence` becomes
`u`; anything else is a gap. -/
theorem binance_window_policy_spec :
    ∀ (pair : String) (U u : Nat) (st : BState) (L : Nat),
    dlookup pair st.last_update_id = some L →
    (((dlookup pair st.forced).getD false = false →
       (u ≤ L →
         binance_check_update_id pair U u st
           = some (true, true, { st with forced := (ddread pair st.forced).2 })
         ∧ ∀ q, (dlookup q (ddread pair st.forced).2).getD false
             = (dlookup q st.forced).getD false)
       ∧ (U ≤ L + 1 → L + 1 ≤ u →
         binance_check_update_id pair U u st
           = some (false, true,
               { st with forced := dinsert pair true (ddread pair st.forced).2,
                         last_update_id := dinsert pair u st.last_update_id }))
       ∧ (L < u → L + 1 < U →
         binance_check_update_id pair U u st = some (true, true, binance_reset)))
     ∧ ((dlookup pair st.forced).getD false = true →
       (U = L + 1 →
         binance_check_update_id pair U u st
           = some (false, false,
               { st with last_update_id := dinsert pair u st.last_update_id }))
       ∧ (U ≠ L + 1 →
         binance_check_update_id pair U u st = some (true, false, binance_reset)))) := by
  intro pair U u st L hL
  have hread : (ddread pair st.forced).1 = (dlookup pair st.forced).getD false :=
    ddread_fst pair st.forced
  constructor
  · intro hf
    rw [hf] at hread
    unfold binance_check_update_id
    rw [hL]
    simp only [hread, Bool.not_false]
    refine ⟨fun hu => ⟨?_, fun q => ddread_snd_lookup pair st.forced q⟩,
            fun hU hu => ?_, fun hu hU => ?_⟩
    · rw [if_pos ⟨by trivial, hu⟩]
    · rw [if_neg (fun h => by omega), if_pos ⟨by trivial, hU, hu⟩]
    · rw [if_neg (fun h => by omega), if_neg (fun h => by omega), if_neg (fun h => by simp at h)]
  · intro hf
    rw [hf] at hread
    have hmat : (ddread pair st.forced).2 = st.forced := by
      unfold ddread
      cases hd : dlookup pair st.forced with
      | none => rw [hd] at hf; cases hf
      | some v => rfl
    unfold binance_check_update_id
    rw [hL]
    simp only [hread, Bool.not_true, hmat]
    constructor
    · intro hU
      rw [if_neg (fun h => by simp at h), if_neg (fun h => by simp at h),
          if_pos ⟨by trivial, hU.symm⟩]
    · intro hU
      rw [if_neg (fun h => by simp at h), if_neg (fun h => by simp at h),
          if_neg (fun h => hU h.2.symm)]

/-- Witness for C1, at the claim's own numbers: with
`lastSequence = 150` and the first post-snapshot update pending, the
update `U = 148, u = 155` is accepted and `lastSequence` becomes 155,
while an update with `u = 150` is skipped as stale. -/
theorem binance_window_policy_witness :
    binance_check_update_id "P" 148 155 wSt150
      = some (false, true,
          { wSt150 with forced := dinsert "P" true (ddread "P" wSt150.forced).2,
                        last_update_id := dinsert "P" 155 wSt150.last_update_id })
    ∧ binance_check_update_id "P" 148 150 wSt150
      = some (true, true, { wSt150 with forced := (ddread "P" wSt150.forced).2 }) := by
  have h1 := binance_window_policy_spec "P" 148 155 wSt150 150 (by decide)
  have h2 := binance_window_policy_spec "P" 148 150 wSt150 150 (by decide)
  exact ⟨(h1.1 (by decide)).2.1 (by omega) (by omega),
         ((h2.1 (by decide)).1 (by omega)).1⟩

/-! ### C2: PoloniexFutures strict consistency policy -/

/-- Claim C2: while synced (the symbol has a delivered book and a recorded
sequence), a book update is accepted iff `seq = lastSequence + 1`, upon
which `lastSequence` becomes `seq`; any update with `seq ≤ lastSequence`
is silently discarded — at the `_book` level it mutates nothing and emits
no event; any other relation (`seq > lastSequence + 1`) resets as a gap. -/
theorem pf_strict_policy_spec :
    ∀ (symbol : String) (seq : Nat) (st : PFState) (book : PFBook) (n L : Nat),
    dlookup symbol st.l2_book = some book →
    book.sequence_number = some n →
    dlookup symbol st.seq_no = some L →
    ((∃ st1, pf_check_update_id symbol seq st = some (false, st1)) ↔ seq = L + 1)
    ∧ (seq = L + 1 →
        pf_check_update_id symbol seq st
          = some (false, { st with seq_no := dinsert symbol seq st.seq_no }))
    ∧ (seq ≤ L → pf_check_update_id symbol seq st = some (true, st))
    ∧ (L + 1 < seq → pf_check_update_id symbol seq st = some (true, pf_reset))
    ∧ (∀ (msg : PFBookMsg) (snap : PFSnapshot),
        msg.symbol = symbol → msg.sequence = seq → seq ≤ L →
        pf_book msg snap st = some (st, [], 0)) := by
  intro symbol seq st book n L hb hn hs
  have heq : pf_check_update_id symbol seq st =
      (if seq ≤ L then some (true, st)
       else if seq = L + 1 then
         some (false, { st with seq_no := dinsert symbol seq st.seq_no })
       else some (true, pf_reset)) := by
    unfold pf_check_update_id
    simp only [hb, hn, hs]
  refine ⟨?_, fun h1 => ?_, fun h1 => ?_, fun h1 => ?_, ?_⟩
  · constructor
    · rintro ⟨st1, h⟩
      rw [heq] at h
      by_cases hle : seq ≤ L
      · rw [if_pos hle] at h; cases h
      · rw [if_neg hle] at h
        by_cases hsucc : seq = L + 1
        · exact hsucc
        · rw [if_neg hsucc] at h; cases h
    · intro hsucc
      refine ⟨{ st with seq_no := dinsert symbol seq st.seq_no }, ?_⟩
      rw [heq, if_neg (by omega), if_pos hsucc]
  · rw [heq, if_neg (by omega), if_pos h1]
  · rw [heq, if_pos h1]
  · rw [heq, if_neg (by omega), if_neg (by omega)]
  · intro msg snap hsym hseq hle
    unfold pf_book
    rw [hsym, hseq]
    simp only [hb]
    rw [heq, if_pos hle]
    rfl

/-- Witness for C2: in the synced state `pwSt` (`lastSequence = 10`),
sequence 11 is accepted adopting `lastSequence = 11`, sequence 10 is
skipped, and `_book` on the replayed sequence-10 message returns the state
untouched with no events and no snapshot fetch. -/
theorem pf_strict_policy_witness :
    pf_check_update_id "S" 11 pwSt
      = some (false, { pwSt with seq_no := dinsert "S" 11 pwSt.seq_no })
    ∧ pf_check_update_id "S" 10 pwSt = some (true, pwSt)
    ∧ pf_book pwMsg pwSnap pwSt = some (pwSt, [], 0) := by
  have h1 := pf_strict_policy_spec "S" 11 pwSt
    ⟨[((1 : ℚ), (1 : ℚ))], [((2 : ℚ), (1 : ℚ))], some 10⟩ 10 10
    (by decide) (by decide) (by decide)
  have h2 := pf_strict_policy_spec "S" 10 pwSt
    ⟨[((1 : ℚ), (1 : ℚ))], [((2 : ℚ), (1 : ℚ))], some 10⟩ 10 10
    (by decide) (by decide) (by decide)
  exact ⟨h1.2.1 rfl, h2.2.2.1 (by omega), h2.2.2.2.2 pwMsg pwSnap rfl rfl (by omega)⟩

/-! ### C7: sequence monotonicity -/

/-- Claim C7: every accepted update strictly increases the recorded
sequence. Strict policy (PoloniexFutures): acceptance forces
`seq = lastSequence + 1`, so the new value is the old plus one. Window
policy (Binance): for a well-formed id window (`U ≤ u`, the update carries
a first-id/last-id pair), acceptance in either the first-after-snapshot or
the subsequent branch leaves `lastSequence = u > old`. Hence `lastSequence`
is strictly increasing — in particular monotonically non-decreasing —
across accepted updates while synced. -/
theorem sequence_monotonicity :
    (∀ (symbol : String) (seq : Nat) (st st1 : PFState) (L : Nat),
      dlookup symbol st.seq_no = some L →
      pf_check_update_id symbol seq st = some (false, st1) →
      dlookup symbol st1.seq_no = some seq ∧ L < seq)
    ∧ (∀ (pair : String) (U u : Nat) (st st1 : BState) (f : Bool) (L : Nat),
      U ≤ u →
      dlookup pair st.last_update_id = some L →
      binance_check_update_id pair U u st = some (false, f, st1) →
      dlookup pair st1.last_update_id = some u ∧ L < u) := by
  constructor
  · intro symbol seq st st1 L hs hch
    unfold pf_check_update_id at hch
    cases hb : dlookup symbol st.l2_book with
    | none => rw [hb] at hch; cases hch
    | some book =>
      rw [hb] at hch
      simp only at hch
      cases hn : book.sequence_number with
      | none => rw [hn] at hch; simp at hch
      | some n =>
        rw [hn, hs] at hch
        simp only at hch
        by_cases hle : seq ≤ L
        · rw [if_pos hle] at hch; simp at hch
        · rw [if_neg hle] at hch
          by_cases hsucc : seq = L + 1
          · rw [if_pos hsucc] at hch
            have : st1 = { st with seq_no := dinsert symbol seq st.seq_no } := by
              cases hch
              rfl
            subst this
            exact ⟨dlookup_dinsert_self symbol seq st.seq_no, by omega⟩
          · rw [if_neg hsucc] at hch; simp at hch
  · intro pair U u st st1 f L hUu hL hch
    unfold binance_check_update_id at hch
    rw [hL] at hch
    simp only at hch
    by_cases h1 : (!(ddread pair st.forced).1) = true ∧ u ≤ L
    · rw [if_pos h1] at hch; simp at hch
    · rw [if_neg h1] at hch
      by_cases h2 : (!(ddread pair st.forced).1) = true ∧ (U ≤ L + 1 ∧ L + 1 ≤ u)
      · rw [if_pos h2] at hch
        have : st1 = { st with
            forced := dinsert pair true (ddread pair st.forced).2,
            last_update_id := dinsert pair u st.last_update_id } := by
          cases hch
          rfl
        subst this
        exact ⟨dlookup_dinsert_self pair u st.last_update_id, by omega⟩
      · rw [if_neg h2] at hch
        by_cases h3 : (!(ddread pair st.forced).1) = false ∧ L + 1 = U
        · rw [if_pos h3] at hch
          have : st1 = { st with
              forced := (ddread pair st.forced).2,
              last_update_id := dinsert pair u st.last_update_id } := by
            cases hch
            rfl
          subst this
          refine ⟨dlookup_dinsert_self pair u st.last_update_id, ?_⟩
          have := h3.2
          omega
        · rw [if_neg h3] at hch; simp at hch

/-- Witness for C7: accepting sequence 11 over `lastSequence = 10`
(PoloniexFutures) and window `[148, 155]` over `lastSequence = 150`
(Binance) both strictly increase the recorded sequence. -/
theorem sequence_monotonicity_witness :
    (dlookup "S" (⟨[("S", ⟨[((1 : ℚ), (1 : ℚ))], [((2 : ℚ), (1 : ℚ))], some 10⟩)],
        [("S", 11)]⟩ : PFState).seq_no = some 11 ∧ 10 < 11)
    ∧ (dlookup "P" (⟨[("P", true)], [("P", ⟨[], []⟩)], [("P", 155)]⟩ : BState).last_update_id
        = some 155 ∧ 150 < 155) :=
  ⟨sequence_monotonicity.1 "S" 11 pwSt _ 10 (by decide) (by decide),
   sequence_monotonicity.2 "P" 148 155 wSt150 _ true 150 (by omega) (by decide) (by decide)⟩

/-! ### C3: gap handling -/

/-- Counterexample to claim C3 as stated: on a gap for `"A"` the handler
calls `self._reset()`, which destroys the order books and sequence state
of EVERY subscribed symbol — here `"B"`, which had a book before the gap
and has none after — not only those of the gapped symbol. -/
theorem binance_gap_not_local :
    dlookup "B" c3State.l2_book = some ⟨[((2 : ℚ), (3 : ℚ))], []⟩
    ∧ binance_book "A" c3Msg c3Snap c3State = some (binance_reset, [], 0)
    ∧ dlookup "B" binance_reset.l2_book = none
    ∧ dlookup "B" binance_reset.last_update_id = none := by decide

/-- Amended C3: for every detected gap on a book update the update is
discarded — no level mutation and no event for it — and the feed resets
globally: the order books and sequence state of ALL subscribed symbols
(not only the gapped one) are destroyed, returning them to the unsynced
state; the next `_book` call for the gapped symbol then performs exactly
one snapshot fetch. -/
theorem binance_gap_global_reset :
    ∀ (pair : String) (msg : BDepthMsg) (snap : BSnapshot) (st : BState) (bk : BookSides) (L : Nat),
    dlookup pair st.l2_book = some bk →
    dlookup pair st.last_update_id = some L →
    (((ddread pair st.forced).1 = false ∧ L < msg.u ∧ L + 1 < msg.U)
      ∨ ((ddread pair st.forced).1 = true ∧ msg.U ≠ L + 1)) →
    binance_book pair msg snap st = some (binance_reset, [], 0)
    ∧ binance_reset.l2_book = [] ∧ binance_reset.last_update_id = []
    ∧ (∀ (msg2 : BDepthMsg) (snap2 : BSnapshot), ∃ st2 evs,
        binance_book pair msg2 snap2 binance_reset = some (st2, evs, 1)) := by
  intro pair msg snap st bk L hb hL hgap
  refine ⟨?_, rfl, rfl, ?_⟩
  · unfold binance_book
    simp only [hb]
    rcases hgap with ⟨hf, hu, hU⟩ | ⟨hf, hU⟩
    · have hch := binance_check_first pair msg.U msg.u st L hL hf
      rw [if_neg (by omega), if_neg (by omega)] at hch
      rw [hch]
      rfl
    · have hch := binance_check_subseq pair msg.U msg.u st L hL hf
      rw [if_neg (fun h => hU h.symm)] at hch
      rw [hch]
      rfl
  · intro msg2 snap2
    have hreset : dlookup pair (binance_reset).l2_book = none := rfl
    have hfr : (ddread pair (binance_reset).forced).1 = false := rfl
    obtain ⟨st2, evs, h, _, _⟩ := binance_book_bootstrap pair msg2 snap2 binance_reset hreset hfr
    exact ⟨st2, evs, h⟩

/-- Witness for C3 (amended): the gap on `"A"` in `c3State` discards the
update, resets everything, and the next `_book` call for `"A"` fetches
exactly one snapshot. -/
theorem binance_gap_global_reset_witness :
    binance_book "A" c3Msg c3Snap c3State = some (binance_reset, [], 0)
    ∧ ∃ st2 evs, binance_book "A" c3Msg c3Snap binance_reset = some (st2, evs, 1) := by
  have h := binance_gap_global_reset "A" c3Msg c3Snap c3State
    ⟨[((1 : ℚ), (1 : ℚ))], []⟩ 100 (by decide) (by decide)
    (Or.inr ⟨by decide, by decide⟩)
  exact ⟨h.1, h.2.2.2 c3Msg c3Snap⟩

/-! ### C4: snapshot bootstrap -/

/-- Counterexample to claim C4 as stated: a delta for a pair with no book
whose final id is stale relative to the fetched snapshot
(`u = 90 ≤ 100 = lastUpdateId`) populates the book and sequence state from
the snapshot but emits NO event at all during the bootstrap — no
BookSnapshot event with `forced = true` is emitted as part of the
snapshot bootstrap itself. -/
theorem binance_bootstrap_no_event :
    binance_book "P" c4Msg c4Snap binance_reset
      = some (⟨[("P", false)], [("P", ⟨[((1 : ℚ), (1 : ℚ))], [((2 : ℚ), (1 : ℚ))]⟩)],
          [("P", 100)]⟩, [], 1) := by decide

/-- Amended C4: a delta for a symbol with no order book makes the
synchronizer fetch one snapshot, populate a fresh book from the snapshot's
bids and asks, and set `lastSequence` to the snapshot's reported sequence.
Binance emits no event during the bootstrap itself: whatever event its
`_book` call emits (none, when the triggering delta is stale) carries
`forced = true`, the flag being attached to the first accepted update
after the snapshot. PoloniexFutures does emit a book event as part of the
bootstrap, but it carries the snapshot's sequence number and no forced
flag. -/
theorem snapshot_bootstrap_spec :
    (∀ (pair : String) (snap : BSnapshot) (st : BState),
      dlookup pair (binance_snapshot pair snap st).l2_book
        = some ⟨build_side snap.bids, build_side snap.asks⟩
      ∧ dlookup pair (binance_snapshot pair snap st).last_update_id = some snap.lastUpdateId)
    ∧ (∀ (pair : String) (msg : BDepthMsg) (snap : BSnapshot) (st : BState),
      dlookup pair st.l2_book = none → (ddread pair st.forced).1 = false →
      msg.u ≤ snap.lastUpdateId →
      ∃ st1, binance_book pair msg snap st = some (st1, [], 1))
    ∧ (∀ (pair : String) (msg : BDepthMsg) (snap : BSnapshot) (st st1 : BState)
        (evs : List BEvent) (n : Nat),
      dlookup pair st.l2_book = none → (ddread pair st.forced).1 = false →
      binance_book pair msg snap st = some (st1, evs, n) →
      n = 1 ∧ ∀ pr bids asks fl dB dA ts, BEvent.book pr bids asks fl dB dA ts ∈ evs → fl = true)
    ∧ (∀ (symbol : String) (snap : PFSnapshot) (st : PFState),
      (pf_snapshot symbol snap st).2
        = PEvent.bookSnapshot symbol snap.bids snap.asks snap.sequence
      ∧ dlookup symbol (pf_snapshot symbol snap st).1.l2_book
        = some ⟨snap.bids, snap.asks, some snap.sequence⟩
      ∧ dlookup symbol (pf_snapshot symbol snap st).1.seq_no = some snap.sequence)
    ∧ (∀ (msg : PFBookMsg) (snap : PFSnapshot) (st : PFState),
      dlookup msg.symbol st.l2_book = none →
      ∃ st1 evs n, pf_book msg snap st
        = some (st1, PEvent.bookSnapshot msg.symbol snap.bids snap.asks snap.sequence :: evs, n)) := by
  refine ⟨?_, ?_, ?_, ?_, ?_⟩
  · intro pair snap st
    exact ⟨binance_snapshot_book pair snap st, binance_snapshot_last pair snap st⟩
  · intro pair msg snap st hb hf hstale
    obtain ⟨st1, evs, h, hemp, _⟩ := binance_book_bootstrap pair msg snap st hb hf
    rw [hemp hstale] at h
    exact ⟨st1, h⟩
  · intro pair msg snap st st1 evs n hb hf h
    obtain ⟨st2, evs2, h2, _, hfl⟩ := binance_book_bootstrap pair msg snap st hb hf
    rw [h] at h2
    have h3 := Option.some.inj h2
    rw [Prod.mk.injEq, Prod.mk.injEq] at h3
    refine ⟨h3.2.2, ?_⟩
    rw [h3.2.1]
    exact hfl
  · intro symbol snap st
    exact ⟨pf_snapshot_event symbol snap st, pf_snapshot_book symbol snap st,
      pf_snapshot_seq symbol snap st⟩
  · intro msg snap st hb
    exact pf_book_bootstrap msg snap st hb

/-- Witness for C4 (amended): the stale bootstrap delta `c4Msg` over
`c4Snap` yields a fetch with no events on Binance, and a fresh
PoloniexFutures symbol delivers the snapshot event first. -/
theorem snapshot_bootstrap_witness :
    (∃ st1, binance_book "P" c4Msg c4Snap binance_reset = some (st1, [], 1))
    ∧ (∃ st1 evs n, pf_book pwMsg pwSnap pf_reset
        = some (st1, PEvent.bookSnapshot "S" pwSnap.bids pwSnap.asks pwSnap.sequence :: evs, n)) :=
  ⟨snapshot_bootstrap_spec.2.1 "P" c4Msg c4Snap binance_reset rfl rfl (by decide),
   snapshot_bootstrap_spec.2.2.2.2 pwMsg pwSnap pf_reset rfl⟩

/-! ### C5: address sharding -/

/-- The sharding loop of `_address`, characterized: sealed shards plus the
open shard always hold exactly the processed tokens in order, every sealed
shard holds 200 tokens, each sealed shard's key lies in its own token
list, the open shard stays below 200 tokens, and the loop variable
`stream` is the last token of the open shard. -/
theorem binance_address_loop_invariant {α : Type u} [DecidableEq α] :
    ∀ (streams : List α) (ret : List (α × List α)) (current : List α) (lastS : Option α),
    ((ret.map Prod.snd).flatten ++ current ++ streams).Nodup →
    (∀ k ∈ ret.map Prod.fst, k ∈ (ret.map Prod.snd).flatten) →
    (∀ sh ∈ ret.map Prod.snd, sh.length = 200) →
    current.length < 200 →
    (current ≠ [] → lastS = current.getLast?) →
    ∃ ret2 current2 lastS2,
      binance_address_loop streams ret current.length current lastS
        = (ret2, current2.length, current2, lastS2)
      ∧ (ret2.map Prod.snd).flatten ++ current2 = (ret.map Prod.snd).flatten ++ current ++ streams
      ∧ (∀ k ∈ ret2.map Prod.fst, k ∈ (ret2.map Prod.snd).flatten)
      ∧ (∀ sh ∈ ret2.map Prod.snd, sh.length = 200)
      ∧ current2.length < 200
      ∧ (current2 ≠ [] → lastS2 = current2.getLast?) := by
  intro streams
  induction streams with
  | nil =>
    intro ret current lastS hnd hkeys hsh hlen hlast
    exact ⟨ret, current, lastS, rfl, by simp, hkeys, hsh, hlen, hlast⟩
  | cons s rest ih =>
    intro ret current lastS hnd hkeys hsh hlen hlast
    have hsnotjoin : s ∉ (ret.map Prod.snd).flatten := by
      intro hin
      have h := (List.nodup_append.mp (by simpa [List.append_assoc] using hnd)).2.2
      exact h hin (by simp)
    have hsnotkeys : s ∉ ret.map Prod.fst := fun hk => hsnotjoin (hkeys s hk)
    by_cases hseal : current.length + 1 = 200
    · have hloop : binance_address_loop (s :: rest) ret current.length current lastS
          = binance_address_loop rest (ret ++ [(s, current ++ [s])]) 0 [] (some s) := by
        simp only [binance_address_loop, if_pos hseal, dinsert_of_not_mem _ hsnotkeys]
      have hjoinNew : ((ret ++ [(s, current ++ [s])]).map Prod.snd).flatten
          = (ret.map Prod.snd).flatten ++ (current ++ [s]) := by
        simp
      obtain ⟨ret2, current2, lastS2, heq, hjoin, hkeys2, hsh2, hlen2, hlast2⟩ :=
        ih (ret ++ [(s, current ++ [s])]) [] (some s)
          (by
            rw [hjoinNew]
            simpa [List.append_assoc] using hnd)
          (by
            intro k hk
            rw [hjoinNew]
            simp only [List.map_append, List.mem_append] at hk
            rcases hk with hk | hk
            · exact List.mem_append_left _ (hkeys k hk)
            · simp at hk
              subst hk
              exact List.mem_append_right _ (by simp))
          (by
            intro sh hshm
            simp only [List.map_append, List.mem_append] at hshm
            rcases hshm with hshm | hshm
            · exact hsh sh hshm
            · simp at hshm
              subst hshm
              simp [hseal])
          (by simp)
          (fun h => absurd rfl h)
      refine ⟨ret2, current2, lastS2, ?_, ?_, hkeys2, hsh2, hlen2, hlast2⟩
      · rw [hloop]
        simpa using heq
      · rw [hjoin, hjoinNew]
        simp [List.append_assoc]
    · have hloop : binance_address_loop (s :: rest) ret current.length current lastS
          = binance_address_loop rest ret (current.length + 1) (current ++ [s]) (some s) := by
        simp only [binance_address_loop, if_neg hseal]
      obtain ⟨ret2, current2, lastS2, heq, hjoin, hkeys2, hsh2, hlen2, hlast2⟩ :=
        ih ret (current ++ [s]) (some s)
          (by simpa [List.append_assoc] using hnd)
          hkeys
          hsh
          (by simp; omega)
          (fun _ => (List.getLast?_concat current).symm)
      refine ⟨ret2, current2, lastS2, ?_, ?_, hkeys2, hsh2, hlen2, hlast2⟩
      · rw [hloop]
        simpa using heq
      · rw [hjoin]
        simp [List.append_assoc]

theorem flatten_length_const {α : Type u} (L : List (List α)) (h : ∀ sh ∈ L, sh.length = 200) :
    L.flatten.length = 200 * L.length := by
  induction L with
  | nil => simp
  | cons x L ih =>
    simp only [List.flatten_cons, List.length_append, List.length_cons]
    rw [ih (fun sh hs => h sh (List.mem_cons_of_mem x hs)), h x (List.mem_cons_self x L)]
    ring

theorem countP_not_mem_zero {α : Type u} [DecidableEq α] (L : List (List α)) (a : α)
    (h : a ∉ L.flatten) : L.countP (fun sh => decide (a ∈ sh)) = 0 := by
  rw [List.countP_eq_zero]
  intro sh hsh
  simp only [decide_eq_true_eq]
  intro hmem
  exact h (List.mem_flatten.mpr ⟨sh, hsh, hmem⟩)

theorem countP_mem_flatten_one {α : Type u} [DecidableEq α] :
    ∀ (L : List (List α)) (a : α), L.flatten.Nodup → a ∈ L.flatten →
    L.countP (fun sh => decide (a ∈ sh)) = 1 := by
  intro L
  induction L with
  | nil => intro a _ h; simp at h
  | cons x L ih =>
    intro a hnd hmem
    rw [List.flatten_cons] at hnd hmem
    rw [List.countP_cons]
    rcases List.nodup_append.mp hnd with ⟨hx, hL, hdisj⟩
    by_cases hax : a ∈ x
    · have hnot : a ∉ L.flatten := fun h => hdisj hax h
      rw [countP_not_mem_zero L a hnot]
      simp [hax]
    · rcases List.mem_append.mp hmem with h | h
      · exact absurd h hax
      · rw [ih a hL h]
        simp [hax]

theorem ceil200 (q r : Nat) (hr : r < 200) :
    (200 * q + r + 199) / 200 = if r = 0 then q else q + 1 := by
  by_cases h0 : r = 0
  · subst h0
    rw [if_pos rfl, Nat.add_zero, Nat.mul_add_div (by omega : (0:Nat) < 200)]
    norm_num
  · rw [if_neg h0]
    have h1 : 200 * q + r + 199 = 200 * (q + 1) + (r - 1) := by omega
    rw [h1, Nat.mul_add_div (by omega : (0:Nat) < 200)]
    have h2 : (r - 1) / 200 = 0 := Nat.div_eq_of_lt (by omega)
    omega

/-- Claim C5: for every non-empty duplicate-free token sequence (the
flattened (channel, symbol) subscription pairs), `_address` partitions the
tokens into connection targets such that the targets' token lists
concatenate back to the input (so every pair lands in a target, in
order), every pair appears in exactly one target, and the number of
targets is `⌈n / 200⌉`; in particular 450 pairs yield exactly 3 targets of
sizes 200, 200 and 50. -/
theorem address_sharding_spec :
    (∀ {α : Type} [DecidableEq α] (streams : List α),
      streams ≠ [] → streams.Nodup →
      (shardsOf (binance_address streams)).flatten = streams
      ∧ (shardsOf (binance_address streams)).length = (streams.length + 199) / 200
      ∧ ∀ s ∈ streams,
          (shardsOf (binance_address streams)).countP (fun sh => decide (s ∈ sh)) = 1)
    ∧ (shardsOf (binance_address (List.range 450))).map List.length = [200, 200, 50] := by
  constructor
  · intro α inst streams hne hnd
    obtain ⟨ret2, current2, lastS2, heq, hjoin, hkeys2, hsh2, hlen2, hlast2⟩ :=
      binance_address_loop_invariant streams [] [] none (by simpa using hnd)
        (by simp) (by simp) (by simp) (fun h => absurd rfl h)
    have heq' : binance_address_loop streams ([] : List (α × List α)) 0 [] none
        = (ret2, current2.length, current2, lastS2) := heq
    have hjoin' : (ret2.map Prod.snd).flatten ++ current2 = streams := by simpa using hjoin
    suffices h : (shardsOf (binance_address streams)).flatten = streams
        ∧ (shardsOf (binance_address streams)).length = (streams.length + 199) / 200 by
      refine ⟨h.1, h.2, ?_⟩
      intro s hs
      exact countP_mem_flatten_one _ s (by rw [h.1]; exact hnd) (by rw [h.1]; exact hs)
    unfold binance_address
    rw [heq']
    simp only
    by_cases hret : ret2 = []
    · have hcur : current2 = streams := by simpa [hret] using hjoin'
      rw [if_pos hret, if_neg (show ¬current2 = [] by rw [hcur]; exact hne)]
      have hslen : streams.length < 200 := by rw [← hcur]; exact hlen2
      have hn0 : 0 < streams.length := List.length_pos.mpr hne
      refine ⟨by simp [shardsOf, hcur], ?_⟩
      have hc := ceil200 0 streams.length hslen
      rw [if_neg (by omega)] at hc
      rw [Nat.mul_zero, Nat.zero_add] at hc
      rw [hc]
      simp [shardsOf]
    · rw [if_neg hret]
      by_cases hcur : current2 = []
      · rw [if_neg (by rw [hcur]; simp)]
        rw [hcur, List.append_nil] at hjoin'
        have hq : streams.length = 200 * ret2.length := by
          rw [← hjoin', flatten_length_const (ret2.map Prod.snd) hsh2, List.length_map]
        refine ⟨by simp [shardsOf, hjoin'], ?_⟩
        have hc := ceil200 ret2.length 0 (by omega)
        rw [if_pos rfl, Nat.add_zero] at hc
        simp only [shardsOf, List.length_map, hq, hc]
      · rw [if_pos (by simpa using List.length_pos.mpr hcur)]
        obtain ⟨l, hl, hlmem⟩ : ∃ l, current2.getLast? = some l ∧ l ∈ current2 :=
          ⟨current2.getLast hcur, List.getLast?_eq_getLast current2 hcur,
            List.getLast_mem hcur⟩
        have hnd2 : ((ret2.map Prod.snd).flatten ++ current2).Nodup := by
          rw [hjoin']
          exact hnd
        have hlnotflat : l ∉ (ret2.map Prod.snd).flatten := by
          intro hin
          exact (List.nodup_append.mp hnd2).2.2 hin hlmem
        have hlnotkeys : l ∉ ret2.map Prod.fst := fun hk => hlnotflat (hkeys2 l hk)
        rw [hlast2 hcur, hl]
        simp only [dinsert_of_not_mem _ hlnotkeys]
        have hflat : ((ret2 ++ [(l, current2)]).map Prod.snd).flatten = streams := by
          simpa using hjoin'
        refine ⟨by simpa [shardsOf] using hflat, ?_⟩
        have hq : streams.length = 200 * ret2.length + current2.length := by
          rw [← hjoin', List.length_append,
            flatten_length_const (ret2.map Prod.snd) hsh2, List.length_map]
        have hc := ceil200 ret2.length current2.length hlen2
        rw [if_neg (fun h0 => hcur (List.length_eq_zero.mp h0))] at hc
        simp only [shardsOf, List.map_append, List.length_append, List.length_map]
        rw [hq, hc]
        simp
  · decide

/-- Witness for C5 at the claim's concrete numbers: 450 distinct tokens
shard into targets whose concatenation is the input and whose count is
`⌈450 / 200⌉ = 3`. -/
theorem address_sharding_witness :
    (shardsOf (binance_address (List.range 450))).flatten = List.range 450
    ∧ (shardsOf (binance_address (List.range 450))).length = 3 := by
  have h := address_sharding_spec.1 (List.range 450) (by simp) (List.nodup_range 450)
  refine ⟨h.1, ?_⟩
  rw [h.2.1]
  norm_num

end CryptofeedProof
